import Mathlib

/-!
Verification of the wallet-signature-verify repository.

We shallowly embed the core of the repository in Lean:

* `hexDecode` models `hex::FromHex` for `Vec<u8>` (even-length hex strings).
* `extract_fields` models `src/parser/extract.rs::extract_fields` on decoded
  bytes; `extractLoop` / `memoLoop` are the outer scan and the memo-array
  sub-scan, written as index recursions faithful to the Rust loops.
* `reconLoop` models the loop of
  `src/parser/reconstruct.rs::reconstruct_unsigned_blob`.
* `verify_signature` models `src/crypto/verify.rs` with the ed25519/secp256k1
  primitive operations abstracted as parameters (they are external audited
  collaborators in the source).
* `recover_pubkey_from_signature`, `verify_web3auth_signature`,
  `verify_evm_signature`, `verify_xrpl_signin` and `solana_verify` model the
  corresponding wallet-family verification routines, again with external
  cryptographic collaborators as parameters.

Bytes are modelled as `Nat` (values below 256 in every run of the Rust code;
none of the statements below needs the bound).
-/

/-- Value of a single hex digit, as in the `hex` crate. -/
def hexVal (c : Char) : Option Nat :=
  if '0' ≤ c ∧ c ≤ '9' then some (c.toNat - 48)
  else if 'a' ≤ c ∧ c ≤ 'f' then some (c.toNat - 87)
  else if 'A' ≤ c ∧ c ≤ 'F' then some (c.toNat - 55)
  else none

/-- Decoding of a hex string into bytes (`Vec::from_hex`): the string must
have even length and every character must be a hex digit. -/
def hexDecode : List Char → Option (List Nat)
  | [] => some []
  | [_] => none
  | c1 :: c2 :: rest =>
    match hexVal c1, hexVal c2, hexDecode rest with
    | some h, some l, some bs => some ((16 * h + l) :: bs)
    | _, _, _ => none

/-- Model of `TransactionFields` from `src/types.rs`. -/
structure TransactionFields where
  signing_pubkey : List Nat
  txn_signature : List Nat
  memo_data : List Nat
deriving DecidableEq, Repr

/-- Model of `VerificationResult` from `src/types.rs`. -/
structure VerificationResult where
  address_valid : Bool
  challenge_valid : Bool
  signature_valid : Bool
  derived_address : String
  found_challenge : Option String
deriving DecidableEq, Repr

/-- Model of `VerificationInput` from `src/wallets/provider.rs`. -/
structure VerificationInput where
  signature_data : String
  expected_address : String
  challenge : Option String
deriving DecidableEq, Repr

/-- The memo-array sub-scan of `extract_fields` (the inner `while` loop of
`src/parser/extract.rs`, lines 53–103): scans from index `i`, capturing
MemoData (`0x7C`) and MemoType (`0x7D`) fields until an end-of-array marker
`0xE1`/`0xF1` or the end of the bytes.  Returns the final
`(memo_data, memo_type)`. -/
def memoLoop (bytes : List Nat) (i : Nat) (memo_data memo_type : List Nat) :
    List Nat × List Nat :=
  if h : i < bytes.length then
    if bytes.getD i 0 = 0xE1 ∨ bytes.getD i 0 = 0xF1 then
      (memo_data, memo_type)
    else if bytes.getD i 0 = 0x7C ∧ i + 1 < bytes.length then
      let len := bytes.getD (i + 1) 0
      if i + 2 + len ≤ bytes.length then
        memoLoop bytes (i + 2 + len) ((bytes.drop (i + 2)).take len) memo_type
      else
        memoLoop bytes (i + 2) memo_data memo_type
    else if bytes.getD i 0 = 0x7D ∧ i + 1 < bytes.length then
      let len := bytes.getD (i + 1) 0
      if i + 2 + len ≤ bytes.length then
        memoLoop bytes (i + 2 + len) memo_data ((bytes.drop (i + 2)).take len)
      else
        memoLoop bytes (i + 2) memo_data memo_type
    else
      memoLoop bytes (i + 1) memo_data memo_type
  else
    (memo_data, memo_type)
termination_by bytes.length - i
decreasing_by all_goals omega

/-- The outer scan of `extract_fields` (the outer `while` loop of
`src/parser/extract.rs`, lines 19–108).  State: current index `i`, captured
`signing_pubkey` and `txn_signature` (both initially empty).  Returns
`(signing_pubkey, (txn_signature, (memo_data, memo_type)))`; the memo fields
are produced by `memoLoop` when the `0xF9 0xEA` marker is found (the loop
exits right after the memo array), and are empty otherwise. -/
def extractLoop (bytes : List Nat) (i : Nat) (spk txn : List Nat) :
    List Nat × (List Nat × (List Nat × List Nat)) :=
  if h : i < bytes.length then
    if bytes.getD i 0 = 0x73 ∧ i + 1 < bytes.length ∧ spk = [] then
      let len := bytes.getD (i + 1) 0
      if i + 2 + len ≤ bytes.length then
        extractLoop bytes (i + 2 + len) ((bytes.drop (i + 2)).take len) txn
      else
        extractLoop bytes (i + 2) spk txn
    else if bytes.getD i 0 = 0x74 ∧ i + 1 < bytes.length ∧ txn = [] then
      let len := bytes.getD (i + 1) 0
      if i + 2 + len ≤ bytes.length then
        extractLoop bytes (i + 2 + len) spk ((bytes.drop (i + 2)).take len)
      else
        extractLoop bytes (i + 2) spk txn
    else if i + 1 < bytes.length ∧ bytes.getD i 0 = 0xF9 ∧
        bytes.getD (i + 1) 0 = 0xEA then
      (spk, (txn, memoLoop bytes (i + 2) [] []))
    else
      extractLoop bytes (i + 1) spk txn
  else
    (spk, (txn, ([], [])))
termination_by bytes.length - i
decreasing_by all_goals omega

/-- Model of `extract_fields` from `src/parser/extract.rs` on decoded bytes: run the
two-level scan, then choose MemoType as the challenge field when it is
strictly longer than MemoData, MemoData otherwise. -/
def extract_fields (bytes : List Nat) : TransactionFields :=
  let out := extractLoop bytes 0 [] []
  let memo_data := out.2.2.1
  let memo_type := out.2.2.2
  let challenge_field := if memo_type.length > memo_data.length
    then memo_type else memo_data
  { signing_pubkey := out.1, txn_signature := out.2.1,
    memo_data := challenge_field }

/-- Model of `extract_fields` on the hex string, including the decode step. -/
def extract_fields_hex (hex : String) : Option TransactionFields :=
  (hexDecode hex.data).map extract_fields

/-- The loop of `reconstruct_unsigned_blob` (`src/parser/reconstruct.rs`,
lines 16–42): copy a whole `0x73` field when its payload fits, then skip a
whole `0x74` field that immediately follows and fits; every other byte is
copied one at a time. -/
def reconLoop (bytes : List Nat) (i : Nat) : List Nat :=
  if h : i < bytes.length then
    let pk_len := bytes.getD (i + 1) 0
    if bytes.getD i 0 = 0x73 ∧ i + 1 < bytes.length ∧
        i + 2 + pk_len ≤ bytes.length then
      let copied := (bytes.drop i).take (2 + pk_len)
      let j := i + 2 + pk_len
      let sig_len := bytes.getD (j + 1) 0
      if j < bytes.length ∧ bytes.getD j 0 = 0x74 ∧ j + 1 < bytes.length ∧
          j + 2 + sig_len ≤ bytes.length then
        copied ++ reconLoop bytes (j + 2 + sig_len)
      else
        copied ++ reconLoop bytes j
    else
      bytes.getD i 0 :: reconLoop bytes (i + 1)
  else
    []
termination_by bytes.length - i
decreasing_by all_goals omega

/-- The fixed XRPL signing prefix `"STX\0"` prepended by
`reconstruct_unsigned_blob`. -/
def stxHeader : List Nat := [0x53, 0x54, 0x58, 0x00]

/-- Model of `reconstruct_unsigned_blob` on decoded bytes. -/
def reconBytes (bytes : List Nat) : List Nat :=
  stxHeader ++ reconLoop bytes 0

/-- Model of `reconstruct_unsigned_blob` from `src/parser/reconstruct.rs`, with the
hex-decoding step; the only error is a hex-decoding failure. -/
def reconstruct_unsigned_blob (signed_hex : String) : Option (List Nat) :=
  (hexDecode signed_hex.data).map reconBytes

/-- Specification-side helper for the reconstruction algorithm, following the
spec's words: if the stream starts with a complete TxnSignature field
(`0x74`, length, payload that fits), drop that whole field; otherwise leave
the stream unchanged. -/
def dropSigAfter (l : List Nat) : List Nat :=
  if l.headD 0 = 0x74 ∧ 1 + l.tail.headD 0 ≤ l.tail.length then
    l.tail.tail.drop (l.tail.headD 0)
  else l

/-- Specification-side description of `reconstruct_unsigned_blob` (before the
prefix), written from the spec's words: walk the stream; on a complete
SigningPubKey field (`0x73`, length, payload that fits) copy the whole
tag+length+payload unchanged and drop a complete TxnSignature field that
immediately follows; copy every other byte unchanged. -/
def removeSignatureFields (l : List Nat) : List Nat :=
  match l with
  | [] => []
  | b :: rest =>
    if b = 0x73 ∧ 1 + rest.headD 0 ≤ rest.length then
      let len := rest.headD 0
      (0x73 :: len :: rest.tail.take len) ++
        removeSignatureFields (dropSigAfter (rest.tail.drop len))
    else
      b :: removeSignatureFields rest
termination_by l.length
decreasing_by
  · have h1 : (dropSigAfter (rest.tail.drop (rest.headD 0))).length
        ≤ (rest.tail.drop (rest.headD 0)).length := by
      unfold dropSigAfter
      split
      · simp only [List.length_drop, List.length_tail]
        omega
      · exact le_refl _
    simp only [List.length_drop, List.length_tail] at h1
    simp only [List.length_cons]
    omega
  · simp

/-- Abstracted cryptographic primitive operations used by
`src/crypto/verify.rs` (ed25519-dalek and secp256k1 are external audited
collaborators; parsed keys/signatures/messages are modelled as opaque byte
lists). -/
structure SigPrims where
  edParse : List Nat → Option (List Nat)
  edVerify : List Nat → List Nat → List Nat → Bool
  derParse : List Nat → Option (List Nat)
  pkParse : List Nat → Option (List Nat)
  msgParse : List Nat → Option (List Nat)
  secpVerify : List Nat → List Nat → List Nat → Bool

/-- Model of `verify_ed25519` from `src/crypto/verify.rs`: reject unless the
public key is exactly 33 bytes and the signature exactly 64 bytes, strip the
`0xED` prefix byte, parse the verifying key (failure is `false`), then call
the primitive verifier on the digest and signature. -/
def verify_ed25519 (P : SigPrims) (pubkey signature digest : List Nat) : Bool :=
  if pubkey.length ≠ 33 ∨ signature.length ≠ 64 then false
  else
    match P.edParse (pubkey.drop 1) with
    | none => false
    | some vk => P.edVerify vk digest signature

/-- Model of `verify_secp256k1` from `src/crypto/verify.rs`: parse the DER
signature, the compressed public key and the digest message; any parse
failure yields `false`, otherwise call the primitive verifier. -/
def verify_secp256k1 (P : SigPrims) (pubkey signature digest : List Nat) : Bool :=
  match P.derParse signature with
  | none => false
  | some sig =>
    match P.pkParse pubkey with
    | none => false
    | some pk =>
      match P.msgParse digest with
      | none => false
      | some m => P.secpVerify m sig pk

/-- Model of `verify_signature` from `src/crypto/verify.rs`: empty public key
is always invalid; a leading `0xED` byte selects Ed25519, anything else
selects secp256k1 ECDSA. -/
def verify_signature (P : SigPrims) (pubkey signature digest : List Nat) : Bool :=
  if pubkey = [] then false
  else if pubkey.headD 0 = 0xED then verify_ed25519 P pubkey signature digest
  else verify_secp256k1 P pubkey signature digest

/-- Abstracted secp256k1 recovery primitives used by
`src/wallets/web3auth/recover.rs`. -/
structure RecoverPrims where
  msgParse : List Nat → Option (List Nat)
  fromI32 : Nat → Option Nat
  fromCompact : List Nat → Nat → Option (List Nat)
  recoverEc : List Nat → List Nat → Option (List Nat)

/-- One recovery attempt for a single recovery identifier `rid`: build the
identifier, build the recoverable signature, recover the public key; `none`
if any step fails. -/
def tryRecoveryId (P : RecoverPrims) (m sig : List Nat) (rid : Nat) :
    Option (List Nat) :=
  (P.fromI32 rid).bind fun r =>
    (P.fromCompact sig r).bind fun rs => P.recoverEc m rs

/-- Model of `recover_pubkey_from_signature` from
`src/wallets/web3auth/recover.rs`: parse the digest into a message (failure
returns the empty candidate list), then try recovery identifiers 0,1,2,3 in
order, pushing each successfully recovered public key. -/
def recover_pubkey_from_signature (P : RecoverPrims)
    (message_hash signature_compact : List Nat) : List (List Nat) :=
  match P.msgParse message_hash with
  | none => []
  | some m =>
    (List.range 4).foldl (fun candidates rid =>
      match P.fromI32 rid with
      | none => candidates
      | some r =>
        match P.fromCompact signature_compact r with
        | none => candidates
        | some rs =>
          match P.recoverEc m rs with
          | none => candidates
          | some pk => candidates ++ [pk]) []

/-- Byte view of a string (`str::as_bytes`; characters are kept abstract as
their code points, which is injective and enough for the claims below). -/
def strBytes (s : String) : List Nat := s.data.map Char.toNat

/-- Abstracted primitives for `src/wallets/web3auth/core.rs`: DER-to-compact
conversion, SHA-512Half, the recovery primitives, account-id derivation and
checksummed-base58 account encoding, and the final with-pubkey verification. -/
structure W3Prims where
  derToCompact : List Nat → Option (List Nat)
  sha512half : List Nat → List Nat
  recPrims : RecoverPrims
  accountId : List Nat → List Nat
  encodeAccountId : List Nat → String
  verifyWithPubkey : List Nat → List Nat → List Nat → Bool

/-- Model of `verify_web3auth_signature` from `src/wallets/web3auth/core.rs`:
decode the DER hex, convert to compact (both failures are errors), hash the
challenge, recover candidate public keys, and return the first candidate
whose derived address equals the expected address; if none matches, report
`address_valid = false`, `signature_valid = false` and an empty derived
address. -/
def verify_web3auth_signature (P : W3Prims)
    (signature_hex challenge expected_address : String) :
    Except String VerificationResult :=
  match hexDecode signature_hex.data with
  | none => .error "invalid hex"
  | some signature_der =>
    match P.derToCompact signature_der with
    | none => .error "Failed to parse DER signature"
    | some signature_compact =>
      let message_hash := P.sha512half (strBytes challenge)
      let pubkey_candidates :=
        recover_pubkey_from_signature P.recPrims message_hash signature_compact
      match pubkey_candidates.find?
          (fun pk => P.encodeAccountId (P.accountId pk) == expected_address) with
      | some pk =>
        .ok { address_valid := true, challenge_valid := true,
              signature_valid :=
                P.verifyWithPubkey pk signature_der message_hash,
              derived_address := P.encodeAccountId (P.accountId pk),
              found_challenge := some challenge }
      | none =>
        .ok { address_valid := false, challenge_valid := true,
              signature_valid := false, derived_address := "",
              found_challenge := some challenge }

/-- Repeatedly strip a leading `"0x"`, as Rust's
`trim_start_matches("0x")` does. -/
def strip0x : List Char → List Char
  | '0' :: 'x' :: rest => strip0x rest
  | l => l

/-- Character-wise ASCII lowercasing of a string, modelling Rust's
`to_lowercase` on the ASCII address/hex strings compared by the EVM path. -/
def toLowerStr (s : String) : String := String.mk (s.data.map Char.toLower)

/-- Abstracted primitives for `src/wallets/wallet_connect/core.rs` (the
ethers signature type, EIP-191 hashing, address recovery and the debug
formatting of an address are external collaborators; parsed values are
opaque). -/
structure EvmPrims where
  parseSig : List Nat → Option Nat
  hashMessage : List Nat → Nat
  recoverAddr : Nat → Nat → Option Nat
  formatAddr : Nat → String

/-- Model of `verify_evm_signature` from
`src/wallets/wallet_connect/core.rs`: strip `0x` prefixes, hex-decode the
signature (failure is an error), require exactly 65 bytes (otherwise an
error), parse the signature and recover the signer address (failures are
errors), then compare the lowercased recovered address with the lowercased
`0x`-prefixed expected address. -/
def verify_evm_signature (P : EvmPrims)
    (signature_hex challenge expected_address : String) :
    Except String VerificationResult :=
  let sigHex := strip0x signature_hex.data
  let expAddr := strip0x expected_address.data
  match hexDecode sigHex with
  | none => .error "Failed to decode signature hex"
  | some signature_bytes =>
    if signature_bytes.length ≠ 65 then
      .error "Invalid signature length: expected 65 bytes"
    else
      match P.parseSig signature_bytes with
      | none => .error "Failed to parse signature"
      | some signature =>
        let message_hash := P.hashMessage (strBytes challenge)
        match P.recoverAddr signature message_hash with
        | none => .error "Failed to recover address from signature"
        | some recovered_address =>
          let recovered_address_str := toLowerStr (P.formatAddr recovered_address)
          let expected_address_str := toLowerStr ("0x" ++ String.mk expAddr)
          let address_valid := recovered_address_str == expected_address_str
          .ok { address_valid := address_valid, challenge_valid := true,
                signature_valid := address_valid,
                derived_address := recovered_address_str,
                found_challenge := some challenge }

/-- Abstracted primitives for `verify_xrpl_signin` in `src/lib.rs`
(signature primitives, SHA-512Half, account-id derivation, the external
checksummed-base58 account codec, and lossy UTF-8 decoding). -/
structure XrplPrims where
  sig : SigPrims
  sha512half : List Nat → List Nat
  accountId : List Nat → List Nat
  encodeAccountId : List Nat → String
  bytesToStr : List Nat → String

/-- Model of `verify_challenge` from `src/lib.rs`: with an expected
challenge, compare it against the decoded memo data (empty memo data is an
automatic failure with no found challenge); with no expected challenge the
check passes vacuously. -/
def verify_challenge (bytesToStr : List Nat → String)
    (fields : TransactionFields) (expected_challenge : Option String) :
    Bool × Option String :=
  match expected_challenge with
  | some expected =>
    if fields.memo_data ≠ [] then
      let memo_str := bytesToStr fields.memo_data
      (memo_str == expected, some memo_str)
    else
      (false, none)
  | none => (true, none)

/-- Model of `verify_xrpl_signin` from `src/lib.rs`: extract the fields
(hex failure is an error), require a non-empty SigningPubKey and
TxnSignature, derive the address from the embedded public key, check the
challenge, reconstruct the unsigned blob, hash it, and verify the signature;
assemble the full result. -/
def verify_xrpl_signin (P : XrplPrims) (signed_hex expected_address : String)
    (expected_challenge : Option String) :
    Except String VerificationResult :=
  match hexDecode signed_hex.data with
  | none => .error "invalid hex"
  | some bytes =>
    let fields := extract_fields bytes
    if fields.signing_pubkey = [] ∨ fields.txn_signature = [] then
      .error "Missing SigningPubKey or TxnSignature"
    else
      let derived_address := P.encodeAccountId (P.accountId fields.signing_pubkey)
      let address_valid := derived_address == expected_address
      let challenge_out := verify_challenge P.bytesToStr fields expected_challenge
      let unsigned_prefixed := reconBytes bytes
      let digest := P.sha512half unsigned_prefixed
      let signature_valid :=
        verify_signature P.sig fields.signing_pubkey fields.txn_signature digest
      .ok { address_valid := address_valid,
            challenge_valid := challenge_out.1,
            signature_valid := signature_valid,
            derived_address := derived_address,
            found_challenge := challenge_out.2 }

/-- Abstracted primitives for `src/wallets/solana/provider.rs` (the base58
codec and ed25519-dalek are external collaborators). -/
structure SolPrims where
  b58decode : String → Option (List Nat)
  b58encode : List Nat → String
  edParse : List Nat → Option (List Nat)
  edVerify : List Nat → List Nat → List Nat → Bool

/-- Model of `SolanaProvider::verify` from `src/wallets/solana/provider.rs`
(with the `validate_input` checks it performs first): a challenge is
required; the expected address must base58-decode to 32 bytes and the
signature to 64 bytes (errors otherwise); the derived address is the base58
re-encoding of the decoded address bytes; the verifying key is parsed from
those same bytes and the signature is checked over the raw challenge;
`address_valid` is set to `signature_valid`. -/
def solana_verify (P : SolPrims) (input : VerificationInput) :
    Except String VerificationResult :=
  match input.challenge with
  | none => .error "Solana: challenge is required for verification"
  | some challenge =>
    match P.b58decode input.expected_address with
    | none => .error "Solana: invalid address (base58 decode failed)"
    | some pubkey_bytes =>
      if pubkey_bytes.length ≠ 32 then
        .error "Solana: address must decode to 32 bytes"
      else
        match P.b58decode input.signature_data with
        | none => .error "Solana: invalid signature (base58 decode failed)"
        | some signature_bytes =>
          if signature_bytes.length ≠ 64 then
            .error "Solana: signature must decode to 64 bytes"
          else
            let derived_address := P.b58encode pubkey_bytes
            match P.edParse pubkey_bytes with
            | none => .error "Solana: failed to parse verifying key"
            | some vk =>
              let signature_valid :=
                P.edVerify vk (strBytes challenge) signature_bytes
              .ok { address_valid := signature_valid, challenge_valid := true,
                    signature_valid := signature_valid,
                    derived_address := derived_address,
                    found_challenge := some challenge }

/-- The MemoData payload captured by the scan (before challenge selection). -/
def memoDataOf (bytes : List Nat) : List Nat := (extractLoop bytes 0 [] []).2.2.1

/-- The MemoType payload captured by the scan (before challenge selection). -/
def memoTypeOf (bytes : List Nat) : List Nat := (extractLoop bytes 0 [] []).2.2.2

/-- Trivial primitive instance in which every parse fails and every verify
returns `false`; used to instantiate the abstract primitives at concrete
inputs. -/
def noSigPrims : SigPrims :=
  ⟨fun _ => none, fun _ _ _ => false, fun _ => none, fun _ => none,
   fun _ => none, fun _ _ _ => false⟩

/-- Recovery primitives in which `from_compact` always fails, so no
candidate is ever produced. -/
def noCandRecover : RecoverPrims :=
  ⟨fun h => some h, fun r => some r, fun _ _ => none, fun _ _ => none⟩

/-- Web3Auth primitives with trivially succeeding conversions and the
no-candidate recovery primitives. -/
def w3NoCand : W3Prims :=
  ⟨fun d => some d, fun b => b, noCandRecover, fun k => k, fun _ => "rX",
   fun _ _ _ => false⟩

/-- EVM primitives whose parse/recovery always succeed and whose address
formats to `"0xAB"`. -/
def evmOkPrims : EvmPrims :=
  ⟨fun _ => some 0, fun _ => 0, fun _ _ => some 0, fun _ => "0xAB"⟩

/-- Trivial XRPL primitives: identity hashing/account-id and a constant
address encoding. -/
def xrplTrivPrims : XrplPrims :=
  ⟨noSigPrims, fun b => b, fun k => k, fun _ => "rAddr", fun _ => ""⟩

/-- Concrete Solana primitives: a toy base58 codec mapping `"sig"` to 64
zero bytes and `"addrA"`/`"addrB"` to distinct 32-byte keys, whose
re-encoding distinguishes the two keys. -/
def solCexPrims : SolPrims :=
  ⟨fun s => if s = "sig" then some (List.replicate 64 0)
    else if s = "addrA" then some (List.replicate 32 1)
    else if s = "addrB" then some (List.replicate 32 2)
    else none,
   fun bs => if bs.headD 0 = 1 then "rA" else "rB",
   fun _ => some [], fun _ _ _ => false⟩

theorem getD_drop (bytes : List Nat) (m k : Nat) :
    (bytes.drop m).getD k 0 = bytes.getD (m + k) 0 := by
  rw [List.getD_eq_getElem?_getD, List.getD_eq_getElem?_getD, List.getElem?_drop]

theorem drop_cons_getD (bytes : List Nat) (i : Nat) (h : i < bytes.length) :
    bytes.drop i = bytes.getD i 0 :: bytes.drop (i + 1) := by
  rw [List.drop_eq_getElem_cons h, List.getD_eq_getElem _ _ h]

theorem dropSigAfter_drop_spec (bytes : List Nat) (j : Nat) :
    (j < bytes.length ∧ bytes.getD j 0 = 0x74 ∧ j + 1 < bytes.length ∧
        j + 2 + bytes.getD (j + 1) 0 ≤ bytes.length →
      dropSigAfter (bytes.drop j) = bytes.drop (j + 2 + bytes.getD (j + 1) 0)) ∧
    (¬(j < bytes.length ∧ bytes.getD j 0 = 0x74 ∧ j + 1 < bytes.length ∧
        j + 2 + bytes.getD (j + 1) 0 ≤ bytes.length) →
      dropSigAfter (bytes.drop j) = bytes.drop j) := by
  constructor
  · rintro ⟨hj, hb, hj1, hfit⟩
    rw [dropSigAfter]
    rw [drop_cons_getD bytes j hj, drop_cons_getD bytes (j+1) hj1]
    rw [if_pos]
    · simp only [List.tail_cons, List.headD_cons, List.drop_drop]
    · simp only [List.headD_cons, List.tail_cons, hb, List.length_cons,
        List.length_drop, true_and]
      omega
  · intro hneg
    rw [dropSigAfter]
    rw [if_neg]
    intro hcond
    apply hneg
    obtain ⟨h74, hlen⟩ := hcond
    have hj : j < bytes.length := by
      by_contra hjn
      rw [List.drop_eq_nil_of_le (by omega)] at h74
      simp at h74
    rw [drop_cons_getD bytes j hj] at h74 hlen
    simp only [List.headD_cons] at h74
    refine ⟨hj, h74, ?_, ?_⟩
    · by_contra hj1n
      rw [List.tail_cons, List.drop_eq_nil_of_le (by omega)] at hlen
      simp at hlen
    · have hj1 : j + 1 < bytes.length := by
        by_contra hj1n
        rw [List.tail_cons, List.drop_eq_nil_of_le (by omega)] at hlen
        simp at hlen
      rw [List.tail_cons, drop_cons_getD bytes (j+1) hj1] at hlen
      simp only [List.headD_cons, List.length_cons, List.length_drop] at hlen
      omega

theorem headD_eq_getD (l : List Nat) (d : Nat) : l.headD d = l.getD 0 d := by
  cases l <;> rfl

theorem headD_drop (bytes : List Nat) (m : Nat) :
    (bytes.drop m).headD 0 = bytes.getD m 0 := by
  rw [headD_eq_getD, getD_drop, Nat.add_zero]

theorem reconLoop_eq_aux : ∀ n (bytes : List Nat) i, bytes.length - i ≤ n →
    reconLoop bytes i = removeSignatureFields (bytes.drop i) := by
  intro n
  induction n with
  | zero =>
    intro bytes i hle
    rw [reconLoop, dif_neg (by omega), List.drop_eq_nil_of_le (by omega),
      removeSignatureFields]
  | succ n ih =>
    intro bytes i hle
    by_cases hi : i < bytes.length
    · rw [reconLoop, dif_pos hi]
      dsimp only
      by_cases hmain : bytes.getD i 0 = 0x73 ∧ i + 1 < bytes.length ∧
          i + 2 + bytes.getD (i + 1) 0 ≤ bytes.length
      · rw [if_pos hmain]
        obtain ⟨hb, hi1, hfit⟩ := hmain
        have h11 : i + 1 + 1 = i + 2 := by omega
        have h2 : 2 + bytes.getD (i + 1) 0 = bytes.getD (i + 1) 0 + 1 + 1 := by
          omega
        by_cases hsig : i + 2 + bytes.getD (i + 1) 0 < bytes.length ∧
            bytes.getD (i + 2 + bytes.getD (i + 1) 0) 0 = 0x74 ∧
            i + 2 + bytes.getD (i + 1) 0 + 1 < bytes.length ∧
            i + 2 + bytes.getD (i + 1) 0 + 2 +
              bytes.getD (i + 2 + bytes.getD (i + 1) 0 + 1) 0 ≤ bytes.length
        · rw [if_pos hsig]
          rw [drop_cons_getD bytes i hi, drop_cons_getD bytes (i+1) hi1, hb, h11]
          rw [removeSignatureFields]
          rw [if_pos (by
            refine ⟨rfl, ?_⟩
            simp only [List.headD_cons, List.length_cons, List.length_drop]
            omega)]
          simp only [List.headD_cons, List.tail_cons]
          rw [h2, List.take_succ_cons, List.take_succ_cons, List.drop_drop]
          rw [(dropSigAfter_drop_spec bytes (i + 2 + bytes.getD (i + 1) 0)).1 hsig]
          rw [ih bytes _ (by omega)]
        · rw [if_neg hsig]
          rw [drop_cons_getD bytes i hi, drop_cons_getD bytes (i+1) hi1, hb, h11]
          rw [removeSignatureFields]
          rw [if_pos (by
            refine ⟨rfl, ?_⟩
            simp only [List.headD_cons, List.length_cons, List.length_drop]
            omega)]
          simp only [List.headD_cons, List.tail_cons]
          rw [h2, List.take_succ_cons, List.take_succ_cons, List.drop_drop]
          rw [(dropSigAfter_drop_spec bytes (i + 2 + bytes.getD (i + 1) 0)).2 hsig]
          rw [ih bytes _ (by omega)]
      · rw [if_neg hmain]
        rw [drop_cons_getD bytes i hi]
        rw [removeSignatureFields]
        rw [if_neg (by
          rintro ⟨h73, hfit⟩
          apply hmain
          rw [headD_drop] at hfit
          simp only [List.length_drop] at hfit
          refine ⟨h73, by omega, by omega⟩)]
        rw [ih bytes (i + 1) (by omega)]
    · rw [reconLoop, dif_neg hi, List.drop_eq_nil_of_le (by omega),
        removeSignatureFields]

theorem extractLoop_spk_stable_aux : ∀ n (bytes : List Nat) i spk txn,
    bytes.length - i ≤ n → spk ≠ [] → (extractLoop bytes i spk txn).1 = spk := by
  intro n
  induction n with
  | zero =>
    intro bytes i spk txn hle hs
    rw [extractLoop, dif_neg (by omega)]
  | succ n ih =>
    intro bytes i spk txn hle hs
    rw [extractLoop]
    by_cases hi : i < bytes.length
    · rw [dif_pos hi]
      dsimp only
      split
      · rename_i h1
        exact absurd h1.2.2 hs
      · split
        · split
          · exact ih bytes _ spk _ (by omega) hs
          · exact ih bytes _ spk _ (by omega) hs
        · split
          · rfl
          · exact ih bytes _ spk _ (by omega) hs
    · rw [dif_neg hi]

theorem extractLoop_txn_stable_aux : ∀ n (bytes : List Nat) i spk txn,
    bytes.length - i ≤ n → txn ≠ [] → (extractLoop bytes i spk txn).2.1 = txn := by
  intro n
  induction n with
  | zero =>
    intro bytes i spk txn hle ht
    rw [extractLoop, dif_neg (by omega)]
  | succ n ih =>
    intro bytes i spk txn hle ht
    rw [extractLoop]
    by_cases hi : i < bytes.length
    · rw [dif_pos hi]
      dsimp only
      split
      · split
        · exact ih bytes _ _ txn (by omega) ht
        · exact ih bytes _ _ txn (by omega) ht
      · split
        · rename_i h2
          exact absurd h2.2.2 ht
        · split
          · rfl
          · exact ih bytes _ _ txn (by omega) ht
    · rw [dif_neg hi]

/-- C3, counterexample: the claim says SigningPubKey is captured from the
first occurrence of tag `0x73` only, and that later occurrences never set or
overwrite the captured value.  In the stream `73 00 73 01 AA` the first
`0x73` field is complete with an empty payload, so the captured value stays
empty, and the second occurrence of the tag then sets
`signing_pubkey = [0xAA]`: a later occurrence sets the value. -/
theorem extract_fields_later_duplicate_captures :
    extract_fields_hex "73007301AA" =
      some { signing_pubkey := [0xAA], txn_signature := [], memo_data := [] } := by
  simp [extract_fields_hex, hexDecode, hexVal, extract_fields, extractLoop]

/-- C3 (amended): the scan captures SigningPubKey/TxnSignature only while
the captured value is still empty, so once a complete field with a
*non-empty* payload has been captured, no later occurrence of the same tag
sets or overwrites it.  Here: a stream starting with a complete `0x73`
(resp. `0x74`) field with non-empty payload `p` always yields
`signing_pubkey = p` (resp. `txn_signature = p`), whatever fields follow. -/
theorem extract_fields_first_nonempty_capture (n : Nat) (p rest : List Nat)
    (hl : p.length = n) (hp : p ≠ []) :
    (extract_fields (0x73 :: n :: (p ++ rest))).signing_pubkey = p ∧
    (extract_fields (0x74 :: n :: (p ++ rest))).txn_signature = p := by
  constructor
  · show (extractLoop (0x73 :: n :: (p ++ rest)) 0 [] []).1 = p
    rw [extractLoop]
    rw [dif_pos (by simp)]
    dsimp only
    rw [if_pos (by simp)]
    simp only [List.getD_cons_succ, List.getD_cons_zero, List.drop_succ_cons,
      List.drop_zero, List.length_cons, List.length_append]
    rw [if_pos (by omega)]
    rw [← hl, List.take_left]
    exact extractLoop_spk_stable_aux ((0x73 :: p.length :: (p ++ rest)).length)
      _ _ _ _ (by omega) hp
  · show (extractLoop (0x74 :: n :: (p ++ rest)) 0 [] []).2.1 = p
    rw [extractLoop]
    rw [dif_pos (by simp)]
    dsimp only
    rw [if_neg (by simp)]
    rw [if_pos (by simp)]
    simp only [List.getD_cons_succ, List.getD_cons_zero, List.drop_succ_cons,
      List.drop_zero, List.length_cons, List.length_append]
    rw [if_pos (by omega)]
    rw [← hl, List.take_left]
    exact extractLoop_txn_stable_aux ((0x74 :: p.length :: (p ++ rest)).length)
      _ _ _ _ (by omega) hp

/-- Witness for the amended C3 theorem: a complete one-byte SigningPubKey
(resp. TxnSignature) field at the head is captured, and the later duplicate
`0x73` (resp. `0x74`) fields in the remainder do not overwrite it. -/
theorem extract_fields_first_nonempty_capture_witness :
    (extract_fields (0x73 :: 1 :: ([5] ++ [0x73, 1, 9, 0x74, 1, 9]))).signing_pubkey
        = [5] ∧
    (extract_fields (0x74 :: 1 :: ([5] ++ [0x73, 1, 9, 0x74, 1, 9]))).txn_signature
        = [5] :=
  extract_fields_first_nonempty_capture 1 [5] [0x73, 1, 9, 0x74, 1, 9] rfl
    (by decide)

/-- C4: for every hex string that decodes, `reconstruct_unsigned_blob`
returns the fixed 4-byte prefix `53 54 58 00` followed by the bytes of the
input in which every complete SigningPubKey field is copied unchanged, a
complete TxnSignature field immediately following such a field is dropped
whole (tag, length and payload), and every other byte is copied unchanged
(`removeSignatureFields`); no TxnSignature field being present is not an
error (the result is still `some _`). -/
theorem reconstruct_unsigned_blob_spec (s : String) (bytes : List Nat)
    (h : hexDecode s.data = some bytes) :
    reconstruct_unsigned_blob s = some (stxHeader ++ removeSignatureFields bytes) := by
  rw [reconstruct_unsigned_blob, h, Option.map_some']
  rw [reconBytes, reconLoop_eq_aux bytes.length bytes 0 (by omega), List.drop_zero]

/-- Witness for the C4 theorem at a concrete blob: a pubkey field, a
signature field (removed), and a trailing loose byte. -/
theorem reconstruct_unsigned_blob_spec_witness :
    hexDecode ("7301AA7401BB05".data) = some [0x73, 1, 0xAA, 0x74, 1, 0xBB, 5] ∧
    reconstruct_unsigned_blob "7301AA7401BB05" =
      some (stxHeader ++ removeSignatureFields [0x73, 1, 0xAA, 0x74, 1, 0xBB, 5]) :=
  ⟨by decide, reconstruct_unsigned_blob_spec _ _ (by decide)⟩

/-- C5: the challenge field returned by `extract_fields` is the captured
MemoType payload exactly when that payload is strictly longer than the
captured MemoData payload, and the MemoData payload otherwise. -/
theorem extract_fields_challenge_selection (bytes : List Nat) :
    ((extract_fields bytes).memo_data = memoTypeOf bytes ∧
      (memoTypeOf bytes).length > (memoDataOf bytes).length) ∨
    ((extract_fields bytes).memo_data = memoDataOf bytes ∧
      ¬ (memoTypeOf bytes).length > (memoDataOf bytes).length) := by
  unfold extract_fields memoTypeOf memoDataOf
  dsimp only
  split
  · rename_i h
    exact Or.inl ⟨rfl, h⟩
  · rename_i h
    exact Or.inr ⟨rfl, h⟩

theorem getD_agree_slice (bytes bytes' : List Nat) (i : Nat)
    (hlen : bytes.length = bytes'.length)
    (hag : ∀ j, i ≤ j → bytes.getD j 0 = bytes'.getD j 0)
    (m l : Nat) (hm : i ≤ m) :
    (bytes.drop m).take l = (bytes'.drop m).take l := by
  apply List.ext_getElem?
  intro k
  rw [List.getElem?_take, List.getElem?_take]
  split
  · rw [List.getElem?_drop, List.getElem?_drop]
    by_cases hk : m + k < bytes.length
    · have h1 := hag (m + k) (by omega)
      rw [List.getD_eq_getElem _ _ hk, List.getD_eq_getElem _ _ (by omega)] at h1
      rw [List.getElem?_eq_getElem hk, List.getElem?_eq_getElem (by omega)]
      exact congrArg some h1
    · rw [List.getElem?_eq_none (by omega), List.getElem?_eq_none (by omega)]
  · rfl

theorem memoLoop_agree_aux : ∀ n (bytes bytes' : List Nat) i md mt,
    bytes.length = bytes'.length →
    (∀ j, i ≤ j → bytes.getD j 0 = bytes'.getD j 0) →
    bytes.length - i ≤ n →
    memoLoop bytes i md mt = memoLoop bytes' i md mt := by
  intro n
  induction n with
  | zero =>
    intro bytes bytes' i md mt hlen hag hle
    rw [memoLoop, dif_neg (by omega)]
    conv_rhs => rw [memoLoop]
    rw [dif_neg (by omega)]
  | succ n ih =>
    intro bytes bytes' i md mt hlen hag hle
    have hb0 : bytes'.getD i 0 = bytes.getD i 0 := (hag i le_rfl).symm
    have hb1 : bytes'.getD (i + 1) 0 = bytes.getD (i + 1) 0 :=
      (hag (i + 1) (by omega)).symm
    rw [memoLoop]
    conv_rhs => rw [memoLoop]
    rw [hb0, hb1, ← hlen]
    by_cases hi : i < bytes.length
    · rw [dif_pos hi, dif_pos hi]
      dsimp only
      by_cases hend : bytes.getD i 0 = 0xE1 ∨ bytes.getD i 0 = 0xF1
      · rw [if_pos hend, if_pos hend]
      · rw [if_neg hend, if_neg hend]
        by_cases h7c : bytes.getD i 0 = 0x7C ∧ i + 1 < bytes.length
        · rw [if_pos h7c, if_pos h7c]
          by_cases hfit : i + 2 + bytes.getD (i + 1) 0 ≤ bytes.length
          · rw [if_pos hfit, if_pos hfit]
            rw [getD_agree_slice bytes bytes' i hlen hag (i + 2) _ (by omega)]
            exact ih bytes bytes' _ _ _ hlen
              (fun j hj => hag j (by omega)) (by omega)
          · rw [if_neg hfit, if_neg hfit]
            exact ih bytes bytes' _ _ _ hlen
              (fun j hj => hag j (by omega)) (by omega)
        · rw [if_neg h7c, if_neg h7c]
          by_cases h7d : bytes.getD i 0 = 0x7D ∧ i + 1 < bytes.length
          · rw [if_pos h7d, if_pos h7d]
            by_cases hfit : i + 2 + bytes.getD (i + 1) 0 ≤ bytes.length
            · rw [if_pos hfit, if_pos hfit]
              rw [getD_agree_slice bytes bytes' i hlen hag (i + 2) _ (by omega)]
              exact ih bytes bytes' _ _ _ hlen
                (fun j hj => hag j (by omega)) (by omega)
            · rw [if_neg hfit, if_neg hfit]
              exact ih bytes bytes' _ _ _ hlen
                (fun j hj => hag j (by omega)) (by omega)
          · rw [if_neg h7d, if_neg h7d]
            exact ih bytes bytes' _ _ _ hlen
              (fun j hj => hag j (by omega)) (by omega)
    · rw [dif_neg hi, dif_neg hi]

theorem extractLoop_agree_aux : ∀ n (bytes bytes' : List Nat) i spk spk' txn,
    bytes.length = bytes'.length →
    (∀ j, i ≤ j → bytes.getD j 0 = bytes'.getD j 0) →
    spk ≠ [] → spk' ≠ [] →
    bytes.length - i ≤ n →
    (extractLoop bytes i spk txn).2 = (extractLoop bytes' i spk' txn).2 := by
  intro n
  induction n with
  | zero =>
    intro bytes bytes' i spk spk' txn hlen hag hs hs' hle
    rw [extractLoop, dif_neg (by omega)]
    conv_rhs => rw [extractLoop]
    rw [dif_neg (by omega)]
  | succ n ih =>
    intro bytes bytes' i spk spk' txn hlen hag hs hs' hle
    have hb0 : bytes'.getD i 0 = bytes.getD i 0 := (hag i le_rfl).symm
    have hb1 : bytes'.getD (i + 1) 0 = bytes.getD (i + 1) 0 :=
      (hag (i + 1) (by omega)).symm
    rw [extractLoop]
    conv_rhs => rw [extractLoop]
    rw [hb0, hb1, ← hlen]
    by_cases hi : i < bytes.length
    · rw [dif_pos hi, dif_pos hi]
      dsimp only
      simp only [eq_false hs, eq_false hs', and_false, if_false]
      by_cases h74 : bytes.getD i 0 = 0x74 ∧ i + 1 < bytes.length ∧ txn = []
      · rw [if_pos h74, if_pos h74]
        by_cases hfit : i + 2 + bytes.getD (i + 1) 0 ≤ bytes.length
        · rw [if_pos hfit, if_pos hfit]
          rw [getD_agree_slice bytes bytes' i hlen hag (i + 2) _ (by omega)]
          exact ih bytes bytes' _ spk spk' _ hlen
            (fun j hj => hag j (by omega)) hs hs' (by omega)
        · rw [if_neg hfit, if_neg hfit]
          exact ih bytes bytes' _ spk spk' _ hlen
            (fun j hj => hag j (by omega)) hs hs' (by omega)
      · rw [if_neg h74, if_neg h74]
        by_cases hmemo : i + 1 < bytes.length ∧ bytes.getD i 0 = 0xF9 ∧
            bytes.getD (i + 1) 0 = 0xEA
        · rw [if_pos hmemo, if_pos hmemo]
          simp only
          rw [memoLoop_agree_aux bytes.length bytes bytes' (i + 2) [] [] hlen
            (fun j hj => hag j (by omega)) (by omega)]
        · rw [if_neg hmemo, if_neg hmemo]
          exact ih bytes bytes' _ spk spk' _ hlen
            (fun j hj => hag j (by omega)) hs hs' (by omega)
    · rw [dif_neg hi, dif_neg hi]

theorem extractLoop_head73_step (n : Nat) (p rest txn : List Nat)
    (hl : p.length = n) :
    extractLoop (0x73 :: n :: (p ++ rest)) 0 [] txn
      = extractLoop (0x73 :: n :: (p ++ rest)) (0 + 2 + n) p txn := by
  rw [extractLoop]
  rw [dif_pos (by simp)]
  dsimp only
  rw [if_pos (by simp)]
  simp only [List.getD_cons_succ, List.getD_cons_zero, List.drop_succ_cons,
    List.drop_zero, List.length_cons, List.length_append]
  rw [if_pos (by omega)]
  rw [← hl, List.take_left, hl]

/-- C1, counterexample: the claim says a `0x73` byte inside the payload of
another field — including an unrecognized tagged field — is never captured.
In the stream `22 03 73 01 AA` the unrecognized tag `0x22` declares length 3,
so its payload covers offsets 2–4; but the scan skips unrecognized bytes one
at a time, reaches offset 2, and captures the `0x73 01 AA` inside that
payload as the SigningPubKey field. -/
theorem extract_fields_unrecognized_payload_tag_captured :
    extract_fields_hex "22037301AA" =
      some { signing_pubkey := [0xAA], txn_signature := [], memo_data := [] } := by
  simp [extract_fields_hex, hexDecode, hexVal, extract_fields, extractLoop]

/-- Head-position corollary of payload opacity: a stream beginning with a
complete SigningPubKey field captures exactly its payload, and the rest of
the parse (TxnSignature, challenge field) is entirely independent of the
payload's content — even if the payload contains `0x73` or `0x74` bytes. -/
theorem extract_fields_recognized_payload_opaque (n : Nat) (p p' rest : List Nat)
    (hl : p.length = n) (hl' : p'.length = n) (hp : p ≠ []) (hp' : p' ≠ []) :
    (extract_fields (0x73 :: n :: (p ++ rest))).signing_pubkey = p ∧
    (extract_fields (0x73 :: n :: (p' ++ rest))).signing_pubkey = p' ∧
    (extract_fields (0x73 :: n :: (p ++ rest))).txn_signature =
      (extract_fields (0x73 :: n :: (p' ++ rest))).txn_signature ∧
    (extract_fields (0x73 :: n :: (p ++ rest))).memo_data =
      (extract_fields (0x73 :: n :: (p' ++ rest))).memo_data := by
  have hstep := extractLoop_head73_step n p rest [] hl
  have hstep' := extractLoop_head73_step n p' rest [] hl'
  have hlen2 : (0x73 :: n :: (p ++ rest)).length
      = (0x73 :: n :: (p' ++ rest)).length := by
    simp only [List.length_cons, List.length_append, hl, hl']
  have hag : ∀ j, 0 + 2 + n ≤ j →
      (0x73 :: n :: (p ++ rest)).getD j 0
        = (0x73 :: n :: (p' ++ rest)).getD j 0 := by
    intro j hj
    obtain ⟨k, rfl⟩ : ∃ k, j = k + 2 := ⟨j - 2, by omega⟩
    simp only [List.getD_cons_succ]
    rw [List.getD_append_right _ _ _ _ (by omega),
      List.getD_append_right _ _ _ _ (by omega), hl, hl']
  have h2 : (extractLoop (0x73 :: n :: (p ++ rest)) 0 [] []).2
      = (extractLoop (0x73 :: n :: (p' ++ rest)) 0 [] []).2 := by
    rw [hstep, hstep']
    exact extractLoop_agree_aux (0x73 :: n :: (p ++ rest)).length _ _ _ _ _ _
      hlen2 hag hp hp' (by omega)
  refine ⟨?_, ?_, ?_, ?_⟩
  · show (extractLoop (0x73 :: n :: (p ++ rest)) 0 [] []).1 = p
    rw [hstep]
    exact extractLoop_spk_stable_aux (0x73 :: n :: (p ++ rest)).length
      _ _ _ _ (by omega) hp
  · show (extractLoop (0x73 :: n :: (p' ++ rest)) 0 [] []).1 = p'
    rw [hstep']
    exact extractLoop_spk_stable_aux (0x73 :: n :: (p' ++ rest)).length
      _ _ _ _ (by omega) hp'
  · show (extractLoop (0x73 :: n :: (p ++ rest)) 0 [] []).2.1
        = (extractLoop (0x73 :: n :: (p' ++ rest)) 0 [] []).2.1
    rw [h2]
  · simp only [extract_fields]
    rw [h2]

/-- Instance of the head-position corollary: the captured pubkey payload may
even be the byte `0x74` itself; the rest of the parse is unaffected and the
later `0x74` field is captured as the signature in both runs. -/
theorem extract_fields_recognized_payload_opaque_witness :
    (extract_fields (0x73 :: 1 :: ([0x74] ++ [0x74, 1, 7]))).signing_pubkey
        = [0x74] ∧
    (extract_fields (0x73 :: 1 :: ([9] ++ [0x74, 1, 7]))).signing_pubkey = [9] ∧
    (extract_fields (0x73 :: 1 :: ([0x74] ++ [0x74, 1, 7]))).txn_signature
        = (extract_fields (0x73 :: 1 :: ([9] ++ [0x74, 1, 7]))).txn_signature ∧
    (extract_fields (0x73 :: 1 :: ([0x74] ++ [0x74, 1, 7]))).memo_data
        = (extract_fields (0x73 :: 1 :: ([9] ++ [0x74, 1, 7]))).memo_data :=
  extract_fields_recognized_payload_opaque 1 [0x74] [9] [0x74, 1, 7] rfl rfl
    (by decide) (by decide)

/-- C6: `verify_signature` returns `false` (never an error — its type has no
error channel) on an empty public key; on the Ed25519 path (leading byte
`0xED`) it returns `false` whenever the public key is not exactly 33 bytes
or the signature is not exactly 64 bytes, and also when the verifying-key
parse fails — size mismatches and parse failures are encoded as `false`. -/
theorem verify_signature_size_and_parse_failures (P : SigPrims)
    (pubkey signature digest : List Nat) :
    (pubkey = [] → verify_signature P pubkey signature digest = false) ∧
    (pubkey.headD 0 = 0xED → pubkey.length ≠ 33 ∨ signature.length ≠ 64 →
      verify_signature P pubkey signature digest = false) ∧
    (pubkey.headD 0 = 0xED → pubkey.length = 33 → signature.length = 64 →
      P.edParse (pubkey.drop 1) = none →
      verify_signature P pubkey signature digest = false) := by
  refine ⟨?_, ?_, ?_⟩
  · intro h
    rw [verify_signature, if_pos h]
  · intro hed hsz
    rw [verify_signature,
      if_neg (by intro h; rw [h] at hed; exact absurd hed (by decide)),
      if_pos hed, verify_ed25519, if_pos hsz]
  · intro hed h33 h64 hparse
    rw [verify_signature,
      if_neg (by intro h; rw [h] at hed; exact absurd hed (by decide)),
      if_pos hed, verify_ed25519, if_neg (by simp [h33, h64]), hparse]

/-- Witness for the C6 theorem: empty key, wrong-size Ed25519 key, and a
correctly sized Ed25519 key whose parse fails, all yield `false`. -/
theorem verify_signature_size_and_parse_failures_witness :
    verify_signature noSigPrims [] [] [] = false ∧
    verify_signature noSigPrims [0xED] [] [] = false ∧
    verify_signature noSigPrims (0xED :: List.replicate 32 0)
      (List.replicate 64 0) [] = false :=
  ⟨(verify_signature_size_and_parse_failures noSigPrims [] [] []).1 rfl,
   (verify_signature_size_and_parse_failures noSigPrims [0xED] [] []).2.1
     rfl (Or.inl (by decide)),
   (verify_signature_size_and_parse_failures noSigPrims
       (0xED :: List.replicate 32 0) (List.replicate 64 0) []).2.2
     rfl (by decide) (by decide) rfl⟩

theorem recover_foldl_eq (P : RecoverPrims) (m sig : List Nat) :
    ∀ (l : List Nat) (acc : List (List Nat)),
    l.foldl (fun candidates rid =>
      match P.fromI32 rid with
      | none => candidates
      | some r =>
        match P.fromCompact sig r with
        | none => candidates
        | some rs =>
          match P.recoverEc m rs with
          | none => candidates
          | some pk => candidates ++ [pk]) acc
      = acc ++ l.filterMap (tryRecoveryId P m sig) := by
  intro l
  induction l with
  | nil =>
    intro acc
    simp
  | cons x xs ih =>
    intro acc
    simp only [List.foldl_cons, List.filterMap_cons, tryRecoveryId]
    cases hx : P.fromI32 x with
    | none =>
      simpa using ih acc
    | some r =>
      simp only [Option.some_bind]
      cases hc : P.fromCompact sig r with
      | none =>
        simpa using ih acc
      | some rs =>
        simp only [Option.some_bind]
        cases he : P.recoverEc m rs with
        | none =>
          simpa using ih acc
        | some pk =>
          simpa using ih (acc ++ [pk])

/-- C7: `recover_pubkey_from_signature` never returns an error (its type has
no error channel); it returns exactly the candidates obtained by trying
recovery identifiers 0,1,2,3 in ascending order (`filterMap` over
`[0,1,2,3]`), one for each identifier whose parse and recovery succeed —
failing identifiers are skipped silently — hence between 0 and 4
candidates. -/
theorem recover_pubkey_candidates_spec (P : RecoverPrims)
    (message_hash signature_compact : List Nat) :
    recover_pubkey_from_signature P message_hash signature_compact
      = (match P.msgParse message_hash with
         | none => []
         | some m => [0, 1, 2, 3].filterMap (tryRecoveryId P m signature_compact)) ∧
    (recover_pubkey_from_signature P message_hash signature_compact).length ≤ 4 := by
  have hmain : recover_pubkey_from_signature P message_hash signature_compact
      = (match P.msgParse message_hash with
         | none => []
         | some m => [0, 1, 2, 3].filterMap (tryRecoveryId P m signature_compact)) := by
    rw [recover_pubkey_from_signature]
    cases hm : P.msgParse message_hash with
    | none => rfl
    | some m =>
      dsimp only
      rw [recover_foldl_eq P m signature_compact (List.range 4) []]
      rw [show List.range 4 = [0, 1, 2, 3] from by decide]
      simp
  refine ⟨hmain, ?_⟩
  rw [hmain]
  cases P.msgParse message_hash with
  | none => simp
  | some m =>
    calc ([0, 1, 2, 3].filterMap (tryRecoveryId P m signature_compact)).length
        ≤ ([0, 1, 2, 3] : List Nat).length := List.length_filterMap_le _ _
      _ ≤ 4 := by decide

/-- C8: when every recovered candidate's derived address differs from the
expected address, `verify_web3auth_signature` returns `Ok` (not an error)
with `address_valid = false`, `signature_valid = false` and an empty
`derived_address`. -/
theorem verify_web3auth_no_match (P : W3Prims)
    (signature_hex challenge expected_address : String) (der sc : List Nat)
    (hhex : hexDecode signature_hex.data = some der)
    (hder : P.derToCompact der = some sc)
    (hnone : ∀ pk ∈ recover_pubkey_from_signature P.recPrims
        (P.sha512half (strBytes challenge)) sc,
      ¬ P.encodeAccountId (P.accountId pk) = expected_address) :
    verify_web3auth_signature P signature_hex challenge expected_address
      = .ok { address_valid := false, challenge_valid := true,
              signature_valid := false, derived_address := "",
              found_challenge := some challenge } := by
  rw [verify_web3auth_signature, hhex]
  dsimp only
  rw [hder]
  dsimp only
  have hf : (recover_pubkey_from_signature P.recPrims
        (P.sha512half (strBytes challenge)) sc).find?
      (fun pk => P.encodeAccountId (P.accountId pk) == expected_address) = none := by
    rw [List.find?_eq_none]
    intro pk hpk
    simpa using hnone pk hpk
  rw [hf]

/-- Witness for the C8 theorem: with recovery primitives that produce no
candidate, the no-match result is returned. -/
theorem verify_web3auth_no_match_witness :
    hexDecode ("".data) = some [] ∧
    w3NoCand.derToCompact [] = some [] ∧
    verify_web3auth_signature w3NoCand "" "c" "rZ"
      = .ok { address_valid := false, challenge_valid := true,
              signature_valid := false, derived_address := "",
              found_challenge := some "c" } :=
  ⟨rfl, rfl,
   verify_web3auth_no_match w3NoCand "" "c" "rZ" [] [] rfl rfl
     (by intro pk hpk; simp [recover_pubkey_from_signature, w3NoCand,
       noCandRecover] at hpk)⟩

/-- C9: an EVM signature whose hex decoding (after stripping `0x`) is not
exactly 65 bytes makes `verify_evm_signature` return a structural error,
never an `Ok` result. -/
theorem verify_evm_bad_length_is_error (P : EvmPrims)
    (signature_hex challenge expected_address : String) (bytes : List Nat)
    (hhex : hexDecode (strip0x signature_hex.data) = some bytes)
    (hlen : bytes.length ≠ 65) :
    verify_evm_signature P signature_hex challenge expected_address
      = .error "Invalid signature length: expected 65 bytes" := by
  rw [verify_evm_signature]
  dsimp only
  rw [hhex]
  dsimp only
  rw [if_pos hlen]

/-- Witness for the C9 theorem: a 1-byte signature is rejected with the
length error. -/
theorem verify_evm_bad_length_is_error_witness :
    hexDecode (strip0x ("00".data)) = some [0] ∧
    ([0] : List Nat).length ≠ 65 ∧
    verify_evm_signature evmOkPrims "00" "c" "AB"
      = .error "Invalid signature length: expected 65 bytes" :=
  ⟨by decide, by decide,
   verify_evm_bad_length_is_error evmOkPrims "00" "c" "AB" [0] (by decide)
     (by decide)⟩

/-- C10: every `Ok` result of `verify_evm_signature` has
`challenge_valid = true` and `signature_valid = address_valid` — the
signature's validity is never reported independently of the address
comparison in the EVM family. -/
theorem verify_evm_ok_invariant (P : EvmPrims)
    (signature_hex challenge expected_address : String) (r : VerificationResult)
    (h : verify_evm_signature P signature_hex challenge expected_address = .ok r) :
    r.challenge_valid = true ∧ r.signature_valid = r.address_valid := by
  rw [verify_evm_signature] at h
  dsimp only at h
  cases hx : hexDecode (strip0x signature_hex.data) with
  | none =>
    rw [hx] at h
    exact Except.noConfusion h
  | some bytes =>
    rw [hx] at h
    dsimp only at h
    by_cases hl : bytes.length ≠ 65
    · rw [if_pos hl] at h
      exact Except.noConfusion h
    · rw [if_neg hl] at h
      cases hp : P.parseSig bytes with
      | none =>
        rw [hp] at h
        exact Except.noConfusion h
      | some sg =>
        rw [hp] at h
        dsimp only at h
        cases hr : P.recoverAddr sg (P.hashMessage (strBytes challenge)) with
        | none =>
          rw [hr] at h
          exact Except.noConfusion h
        | some addr =>
          rw [hr] at h
          dsimp only at h
          injection h with h'
          rw [← h']
          exact ⟨rfl, rfl⟩

/-- Witness for the C10 theorem at a concrete `Ok` run (65 zero bytes,
matching address after lowercasing). -/
theorem verify_evm_ok_invariant_witness :
    ({ address_valid := true, challenge_valid := true, signature_valid := true,
       derived_address := "0xab", found_challenge := some "c" }
      : VerificationResult).challenge_valid = true ∧
    ({ address_valid := true, challenge_valid := true, signature_valid := true,
       derived_address := "0xab", found_challenge := some "c" }
      : VerificationResult).signature_valid
      = ({ address_valid := true, challenge_valid := true, signature_valid := true,
           derived_address := "0xab", found_challenge := some "c" }
          : VerificationResult).address_valid :=
  verify_evm_ok_invariant evmOkPrims
    "0000000000000000000000000000000000000000000000000000000000000000000000000000000000000000000000000000000000000000000000000000000000"
    "c" "AB"
    { address_valid := true, challenge_valid := true, signature_valid := true,
      derived_address := "0xab", found_challenge := some "c" }
    (by rfl)

/-- C2 (amended): in the native-XRPL, Web3Auth and EVM families the
`derived_address` of every `Ok` result is computed from cryptographic
material — the public key parsed from the blob (XRPL), a public key
recovered from the signature (Web3Auth, possibly none, in which case it is
empty), or the address recovered from the signature (EVM, independent of
the caller's `expected_address`).  In the Solana family, however, it is the
base58 re-encoding of the bytes decoded from the caller-supplied
`expected_address` — see the counterexample. -/
theorem derived_address_provenance :
    (∀ (P : XrplPrims) (s a : String) (ch : Option String) (bytes : List Nat)
        (r : VerificationResult),
      hexDecode s.data = some bytes →
      verify_xrpl_signin P s a ch = .ok r →
      r.derived_address
        = P.encodeAccountId (P.accountId (extract_fields bytes).signing_pubkey)) ∧
    (∀ (P : W3Prims) (sh c ea : String) (r : VerificationResult),
      verify_web3auth_signature P sh c ea = .ok r →
      r.derived_address = "" ∨
      ∃ der sc pk, hexDecode sh.data = some der ∧ P.derToCompact der = some sc ∧
        pk ∈ recover_pubkey_from_signature P.recPrims
          (P.sha512half (strBytes c)) sc ∧
        r.derived_address = P.encodeAccountId (P.accountId pk)) ∧
    (∀ (P : EvmPrims) (s c a a' : String) (r r' : VerificationResult),
      verify_evm_signature P s c a = .ok r →
      verify_evm_signature P s c a' = .ok r' →
      r.derived_address = r'.derived_address) ∧
    (∀ (P : SolPrims) (input : VerificationInput) (r : VerificationResult),
      solana_verify P input = .ok r →
      ∃ pk, P.b58decode input.expected_address = some pk ∧
        r.derived_address = P.b58encode pk) := by
  refine ⟨?_, ?_, ?_, ?_⟩
  · intro P s a ch bytes r hhex h
    rw [verify_xrpl_signin, hhex] at h
    dsimp only at h
    by_cases hmiss : (extract_fields bytes).signing_pubkey = [] ∨
        (extract_fields bytes).txn_signature = []
    · rw [if_pos hmiss] at h
      exact Except.noConfusion h
    · rw [if_neg hmiss] at h
      injection h with h'
      rw [← h']
  · intro P sh c ea r h
    rw [verify_web3auth_signature] at h
    cases hx : hexDecode sh.data with
    | none =>
      rw [hx] at h
      exact Except.noConfusion h
    | some der =>
      rw [hx] at h
      dsimp only at h
      cases hd : P.derToCompact der with
      | none =>
        rw [hd] at h
        exact Except.noConfusion h
      | some sc =>
        rw [hd] at h
        dsimp only at h
        cases hf : (recover_pubkey_from_signature P.recPrims
            (P.sha512half (strBytes c)) sc).find?
            (fun pk => P.encodeAccountId (P.accountId pk) == ea) with
        | none =>
          rw [hf] at h
          injection h with h'
          rw [← h']
          exact Or.inl rfl
        | some pk =>
          rw [hf] at h
          injection h with h'
          rw [← h']
          exact Or.inr ⟨der, sc, pk, rfl, hd,
            List.mem_of_find?_eq_some hf, rfl⟩
  · intro P s c a a' r r' h h'
    rw [verify_evm_signature] at h h'
    dsimp only at h h'
    cases hx : hexDecode (strip0x s.data) with
    | none =>
      rw [hx] at h
      exact Except.noConfusion h
    | some bytes =>
      rw [hx] at h h'
      dsimp only at h h'
      by_cases hl : bytes.length ≠ 65
      · rw [if_pos hl] at h
        exact Except.noConfusion h
      · rw [if_neg hl] at h h'
        cases hp : P.parseSig bytes with
        | none =>
          rw [hp] at h
          exact Except.noConfusion h
        | some sg =>
          rw [hp] at h h'
          dsimp only at h h'
          cases hr : P.recoverAddr sg (P.hashMessage (strBytes c)) with
          | none =>
            rw [hr] at h
            exact Except.noConfusion h
          | some addr =>
            rw [hr] at h h'
            dsimp only at h h'
            injection h with h1
            injection h' with h2
            rw [← h1, ← h2]
  · intro P input r h
    rw [solana_verify] at h
    cases hch : input.challenge with
    | none =>
      rw [hch] at h
      exact Except.noConfusion h
    | some challenge =>
      rw [hch] at h
      dsimp only at h
      cases ha : P.b58decode input.expected_address with
      | none =>
        rw [ha] at h
        exact Except.noConfusion h
      | some pubkey_bytes =>
        rw [ha] at h
        dsimp only at h
        by_cases h32 : pubkey_bytes.length ≠ 32
        · rw [if_pos h32] at h
          exact Except.noConfusion h
        · rw [if_neg h32] at h
          cases hs : P.b58decode input.signature_data with
          | none =>
            rw [hs] at h
            exact Except.noConfusion h
          | some signature_bytes =>
            rw [hs] at h
            dsimp only at h
            by_cases h64 : signature_bytes.length ≠ 64
            · rw [if_pos h64] at h
              exact Except.noConfusion h
            · rw [if_neg h64] at h
              cases hk : P.edParse pubkey_bytes with
              | none =>
                rw [hk] at h
                exact Except.noConfusion h
              | some vk =>
                rw [hk] at h
                dsimp only at h
                injection h with h'
                rw [← h']
                exact ⟨pubkey_bytes, rfl, rfl⟩

/-- C2, counterexample: the claim says `derived_address` is never copied or
re-encoded from the caller-supplied `expected_address`, for every wallet
family.  In the Solana provider (`src/wallets/solana/provider.rs`, lines
65–66) the derived address is `bs58::encode` of the bytes decoded from
`input.expected_address` itself: two runs with identical `signature_data`
and `challenge` but different `expected_address` produce different
`derived_address` values, so the field depends on (and is re-encoded from)
the caller-supplied address, not on cryptographic material alone. -/
theorem solana_derived_address_from_caller_input :
    (solana_verify solCexPrims
        { signature_data := "sig", expected_address := "addrA",
          challenge := some "c" }).toOption.map
      VerificationResult.derived_address = some "rA" ∧
    (solana_verify solCexPrims
        { signature_data := "sig", expected_address := "addrB",
          challenge := some "c" }).toOption.map
      VerificationResult.derived_address = some "rB" ∧
    ("rA" : String) ≠ "rB" :=
  ⟨rfl, rfl, by decide⟩

/-- Witness for the amended C2 theorem, instantiating all four families at
concrete `Ok` runs. -/
theorem derived_address_provenance_witness :
    (({ address_valid := false, challenge_valid := true, signature_valid := false,
        derived_address := "rAddr", found_challenge := none }
        : VerificationResult).derived_address
      = xrplTrivPrims.encodeAccountId (xrplTrivPrims.accountId
          (extract_fields [0x73, 1, 2, 0x74, 1, 3]).signing_pubkey)) ∧
    (({ address_valid := false, challenge_valid := true, signature_valid := false,
        derived_address := "", found_challenge := some "c" }
        : VerificationResult).derived_address = "" ∨
      ∃ der sc pk, hexDecode ("".data) = some der ∧
        w3NoCand.derToCompact der = some sc ∧
        pk ∈ recover_pubkey_from_signature w3NoCand.recPrims
          (w3NoCand.sha512half (strBytes "c")) sc ∧
        ({ address_valid := false, challenge_valid := true,
           signature_valid := false, derived_address := "",
           found_challenge := some "c" }
          : VerificationResult).derived_address
          = w3NoCand.encodeAccountId (w3NoCand.accountId pk)) ∧
    (({ address_valid := true, challenge_valid := true, signature_valid := true,
        derived_address := "0xab", found_challenge := some "c" }
        : VerificationResult).derived_address
      = ({ address_valid := false, challenge_valid := true,
           signature_valid := false, derived_address := "0xab",
           found_challenge := some "c" }
          : VerificationResult).derived_address) ∧
    (∃ pk, solCexPrims.b58decode "addrA" = some pk ∧
      ({ address_valid := false, challenge_valid := true,
         signature_valid := false, derived_address := "rA",
         found_challenge := some "c" }
        : VerificationResult).derived_address = solCexPrims.b58encode pk) :=
  ⟨derived_address_provenance.1 xrplTrivPrims "730102740103" "x" none
      [0x73, 1, 2, 0x74, 1, 3]
      { address_valid := false, challenge_valid := true, signature_valid := false,
        derived_address := "rAddr", found_challenge := none }
      (by decide)
      (by simp [verify_xrpl_signin, hexDecode, hexVal, extract_fields,
        extractLoop, verify_challenge, verify_signature, verify_secp256k1,
        reconBytes, reconLoop, stxHeader, xrplTrivPrims, noSigPrims]),
   derived_address_provenance.2.1 w3NoCand "" "c" "rZ"
      { address_valid := false, challenge_valid := true, signature_valid := false,
        derived_address := "", found_challenge := some "c" }
      rfl,
   derived_address_provenance.2.2.1 evmOkPrims
      "0000000000000000000000000000000000000000000000000000000000000000000000000000000000000000000000000000000000000000000000000000000000"
      "c" "AB" "CD"
      { address_valid := true, challenge_valid := true, signature_valid := true,
        derived_address := "0xab", found_challenge := some "c" }
      { address_valid := false, challenge_valid := true, signature_valid := false,
        derived_address := "0xab", found_challenge := some "c" }
      (by rfl) (by rfl),
   derived_address_provenance.2.2.2 solCexPrims
      { signature_data := "sig", expected_address := "addrA",
        challenge := some "c" }
      { address_valid := false, challenge_valid := true, signature_valid := false,
        derived_address := "rA", found_challenge := some "c" }
      rfl⟩

theorem extractLoop_agree_txn_aux : ∀ n (bytes bytes' : List Nat) i spk txn txn',
    bytes.length = bytes'.length →
    (∀ j, i ≤ j → bytes.getD j 0 = bytes'.getD j 0) →
    txn ≠ [] → txn' ≠ [] →
    bytes.length - i ≤ n →
    ((extractLoop bytes i spk txn).1, (extractLoop bytes i spk txn).2.2)
      = ((extractLoop bytes' i spk txn').1, (extractLoop bytes' i spk txn').2.2) := by
  intro n
  induction n with
  | zero =>
    intro bytes bytes' i spk txn txn' hlen hag ht ht' hle
    rw [extractLoop, dif_neg (by omega)]
    conv_rhs => rw [extractLoop]
    rw [dif_neg (by omega)]
  | succ n ih =>
    intro bytes bytes' i spk txn txn' hlen hag ht ht' hle
    have hb0 : bytes'.getD i 0 = bytes.getD i 0 := (hag i le_rfl).symm
    have hb1 : bytes'.getD (i + 1) 0 = bytes.getD (i + 1) 0 :=
      (hag (i + 1) (by omega)).symm
    rw [extractLoop]
    conv_rhs => rw [extractLoop]
    rw [hb0, hb1, ← hlen]
    by_cases hi : i < bytes.length
    · rw [dif_pos hi, dif_pos hi]
      dsimp only
      simp only [eq_false ht, eq_false ht', and_false, if_false]
      by_cases h73 : bytes.getD i 0 = 0x73 ∧ i + 1 < bytes.length ∧ spk = []
      · rw [if_pos h73, if_pos h73]
        by_cases hfit : i + 2 + bytes.getD (i + 1) 0 ≤ bytes.length
        · rw [if_pos hfit, if_pos hfit]
          rw [getD_agree_slice bytes bytes' i hlen hag (i + 2) _ (by omega)]
          exact ih bytes bytes' _ _ txn txn' hlen
            (fun j hj => hag j (by omega)) ht ht' (by omega)
        · rw [if_neg hfit, if_neg hfit]
          exact ih bytes bytes' _ _ txn txn' hlen
            (fun j hj => hag j (by omega)) ht ht' (by omega)
      · rw [if_neg h73, if_neg h73]
        by_cases hmemo : i + 1 < bytes.length ∧ bytes.getD i 0 = 0xF9 ∧
            bytes.getD (i + 1) 0 = 0xEA
        · rw [if_pos hmemo, if_pos hmemo]
          simp only
          rw [memoLoop_agree_aux bytes.length bytes bytes' (i + 2) [] [] hlen
            (fun j hj => hag j (by omega)) (by omega)]
        · rw [if_neg hmemo, if_neg hmemo]
          exact ih bytes bytes' _ _ txn txn' hlen
            (fun j hj => hag j (by omega)) ht ht' (by omega)
    · rw [dif_neg hi, dif_neg hi]

theorem memoLoop_accum_aux : ∀ n (bytes : List Nat) i md₁ mt₁ md₂ mt₂,
    bytes.length - i ≤ n →
    ((memoLoop bytes i md₁ mt₁).1 = (memoLoop bytes i md₂ mt₂).1 ∨
      ((memoLoop bytes i md₁ mt₁).1 = md₁ ∧ (memoLoop bytes i md₂ mt₂).1 = md₂)) ∧
    ((memoLoop bytes i md₁ mt₁).2 = (memoLoop bytes i md₂ mt₂).2 ∨
      ((memoLoop bytes i md₁ mt₁).2 = mt₁ ∧ (memoLoop bytes i md₂ mt₂).2 = mt₂)) := by
  intro n
  induction n with
  | zero =>
    intro bytes i md₁ mt₁ md₂ mt₂ hle
    have u : ∀ md mt : List Nat, memoLoop bytes i md mt = (md, mt) :=
      fun md mt => by rw [memoLoop, dif_neg (by omega)]
    rw [u md₁ mt₁, u md₂ mt₂]
    exact ⟨Or.inr ⟨rfl, rfl⟩, Or.inr ⟨rfl, rfl⟩⟩
  | succ n ih =>
    intro bytes i md₁ mt₁ md₂ mt₂ hle
    by_cases hi : i < bytes.length
    · by_cases hend : bytes.getD i 0 = 0xE1 ∨ bytes.getD i 0 = 0xF1
      · have u : ∀ md mt : List Nat, memoLoop bytes i md mt = (md, mt) :=
          fun md mt => by
            rw [memoLoop, dif_pos hi]
            dsimp only
            rw [if_pos hend]
        rw [u md₁ mt₁, u md₂ mt₂]
        exact ⟨Or.inr ⟨rfl, rfl⟩, Or.inr ⟨rfl, rfl⟩⟩
      · by_cases h7c : bytes.getD i 0 = 0x7C ∧ i + 1 < bytes.length
        · by_cases hfit : i + 2 + bytes.getD (i + 1) 0 ≤ bytes.length
          · have u : ∀ md mt : List Nat, memoLoop bytes i md mt
                = memoLoop bytes (i + 2 + bytes.getD (i + 1) 0)
                    ((bytes.drop (i + 2)).take (bytes.getD (i + 1) 0)) mt :=
              fun md mt => by
                rw [memoLoop, dif_pos hi]
                dsimp only
                rw [if_neg hend, if_pos h7c, if_pos hfit]
            rw [u md₁ mt₁, u md₂ mt₂]
            have h := ih bytes (i + 2 + bytes.getD (i + 1) 0)
              ((bytes.drop (i + 2)).take (bytes.getD (i + 1) 0)) mt₁
              ((bytes.drop (i + 2)).take (bytes.getD (i + 1) 0)) mt₂ (by omega)
            refine ⟨?_, h.2⟩
            rcases h.1 with h1 | h1
            · exact Or.inl h1
            · exact Or.inl (h1.1.trans h1.2.symm)
          · have u : ∀ md mt : List Nat, memoLoop bytes i md mt
                = memoLoop bytes (i + 2) md mt :=
              fun md mt => by
                rw [memoLoop, dif_pos hi]
                dsimp only
                rw [if_neg hend, if_pos h7c, if_neg hfit]
            rw [u md₁ mt₁, u md₂ mt₂]
            exact ih bytes (i + 2) md₁ mt₁ md₂ mt₂ (by omega)
        · by_cases h7d : bytes.getD i 0 = 0x7D ∧ i + 1 < bytes.length
          · by_cases hfit : i + 2 + bytes.getD (i + 1) 0 ≤ bytes.length
            · have u : ∀ md mt : List Nat, memoLoop bytes i md mt
                  = memoLoop bytes (i + 2 + bytes.getD (i + 1) 0) md
                      ((bytes.drop (i + 2)).take (bytes.getD (i + 1) 0)) :=
                fun md mt => by
                  rw [memoLoop, dif_pos hi]
                  dsimp only
                  rw [if_neg hend, if_neg h7c, if_pos h7d, if_pos hfit]
              rw [u md₁ mt₁, u md₂ mt₂]
              have h := ih bytes (i + 2 + bytes.getD (i + 1) 0)
                md₁ ((bytes.drop (i + 2)).take (bytes.getD (i + 1) 0))
                md₂ ((bytes.drop (i + 2)).take (bytes.getD (i + 1) 0)) (by omega)
              refine ⟨h.1, ?_⟩
              rcases h.2 with h2 | h2
              · exact Or.inl h2
              · exact Or.inl (h2.1.trans h2.2.symm)
            · have u : ∀ md mt : List Nat, memoLoop bytes i md mt
                  = memoLoop bytes (i + 2) md mt :=
                fun md mt => by
                  rw [memoLoop, dif_pos hi]
                  dsimp only
                  rw [if_neg hend, if_neg h7c, if_pos h7d, if_neg hfit]
              rw [u md₁ mt₁, u md₂ mt₂]
              exact ih bytes (i + 2) md₁ mt₁ md₂ mt₂ (by omega)
          · have u : ∀ md mt : List Nat, memoLoop bytes i md mt
                = memoLoop bytes (i + 1) md mt :=
              fun md mt => by
                rw [memoLoop, dif_pos hi]
                dsimp only
                rw [if_neg hend, if_neg h7c, if_neg h7d]
            rw [u md₁ mt₁, u md₂ mt₂]
            exact ih bytes (i + 1) md₁ mt₁ md₂ mt₂ (by omega)
    · have u : ∀ md mt : List Nat, memoLoop bytes i md mt = (md, mt) :=
        fun md mt => by rw [memoLoop, dif_neg hi]
      rw [u md₁ mt₁, u md₂ mt₂]
      exact ⟨Or.inr ⟨rfl, rfl⟩, Or.inr ⟨rfl, rfl⟩⟩

theorem getD_agree_of_bounded (bytes bytes' : List Nat) (P : Nat → Prop)
    (hlen : bytes.length = bytes'.length)
    (h : ∀ j, j < bytes.length → P j → bytes.getD j 0 = bytes'.getD j 0) :
    ∀ j, P j → bytes.getD j 0 = bytes'.getD j 0 := by
  intro j hj
  by_cases hjl : j < bytes.length
  · exact h j hjl hj
  · rw [List.getD_eq_default _ _ (by omega), List.getD_eq_default _ _ (by omega)]

/-- C1 (amended): the two tag bytes are recognized only at positions the
state machine scans, and the payload of every field the scan *captures* is
consumed atomically, never re-inspected for tags.  Concretely, for each of
the four captured-field kinds — SigningPubKey `0x73` scanned while the
pubkey slot is empty, TxnSignature `0x74` scanned while the signature slot
is empty (the two states in which `extract_fields`, which starts
`extractLoop` at position 0 with both slots empty, processes these tags),
and MemoData `0x7C` / MemoType `0x7D` at any state of the memo sub-scan —
at any scan position `i` holding a complete such field: the captured value
is exactly the payload slice, and on two streams of equal length that agree
everywhere outside the payload bytes, everything else in the parse is
identical (for the memo kinds, the other memo slot is identical and the
captured slot is either later overwritten identically or holds the
respective payload).  So a `0x73`/`0x74` byte inside a captured field's
payload is never captured as a field.  By contrast, unrecognized tagged
fields — and duplicate `0x73`/`0x74` fields once their slot is full — are
skipped byte-by-byte, so a tag byte inside their payloads CAN be captured:
see the counterexample. -/
theorem extract_payload_opacity :
    (∀ (bytes bytes' : List Nat) (i : Nat) (txn : List Nat),
      bytes.length = bytes'.length →
      (∀ j, j < bytes.length →
        j < i + 2 ∨ i + 2 + bytes.getD (i + 1) 0 ≤ j →
        bytes.getD j 0 = bytes'.getD j 0) →
      bytes.getD i 0 = 0x73 → i + 1 < bytes.length →
      i + 2 + bytes.getD (i + 1) 0 ≤ bytes.length →
      bytes.getD (i + 1) 0 ≠ 0 →
      (extractLoop bytes i [] txn).1
          = (bytes.drop (i + 2)).take (bytes.getD (i + 1) 0) ∧
      (extractLoop bytes' i [] txn).1
          = (bytes'.drop (i + 2)).take (bytes.getD (i + 1) 0) ∧
      (extractLoop bytes i [] txn).2 = (extractLoop bytes' i [] txn).2) ∧
    (∀ (bytes bytes' : List Nat) (i : Nat) (spk : List Nat),
      bytes.length = bytes'.length →
      (∀ j, j < bytes.length →
        j < i + 2 ∨ i + 2 + bytes.getD (i + 1) 0 ≤ j →
        bytes.getD j 0 = bytes'.getD j 0) →
      bytes.getD i 0 = 0x74 → i + 1 < bytes.length →
      i + 2 + bytes.getD (i + 1) 0 ≤ bytes.length →
      bytes.getD (i + 1) 0 ≠ 0 →
      (extractLoop bytes i spk []).2.1
          = (bytes.drop (i + 2)).take (bytes.getD (i + 1) 0) ∧
      (extractLoop bytes' i spk []).2.1
          = (bytes'.drop (i + 2)).take (bytes.getD (i + 1) 0) ∧
      (extractLoop bytes i spk []).1 = (extractLoop bytes' i spk []).1 ∧
      (extractLoop bytes i spk []).2.2 = (extractLoop bytes' i spk []).2.2) ∧
    (∀ (bytes bytes' : List Nat) (i : Nat) (md mt : List Nat),
      bytes.length = bytes'.length →
      (∀ j, j < bytes.length →
        j < i + 2 ∨ i + 2 + bytes.getD (i + 1) 0 ≤ j →
        bytes.getD j 0 = bytes'.getD j 0) →
      bytes.getD i 0 = 0x7C → i + 1 < bytes.length →
      i + 2 + bytes.getD (i + 1) 0 ≤ bytes.length →
      (memoLoop bytes i md mt).2 = (memoLoop bytes' i md mt).2 ∧
      ((memoLoop bytes i md mt).1 = (memoLoop bytes' i md mt).1 ∨
        ((memoLoop bytes i md mt).1
            = (bytes.drop (i + 2)).take (bytes.getD (i + 1) 0) ∧
         (memoLoop bytes' i md mt).1
            = (bytes'.drop (i + 2)).take (bytes.getD (i + 1) 0)))) ∧
    (∀ (bytes bytes' : List Nat) (i : Nat) (md mt : List Nat),
      bytes.length = bytes'.length →
      (∀ j, j < bytes.length →
        j < i + 2 ∨ i + 2 + bytes.getD (i + 1) 0 ≤ j →
        bytes.getD j 0 = bytes'.getD j 0) →
      bytes.getD i 0 = 0x7D → i + 1 < bytes.length →
      i + 2 + bytes.getD (i + 1) 0 ≤ bytes.length →
      (memoLoop bytes i md mt).1 = (memoLoop bytes' i md mt).1 ∧
      ((memoLoop bytes i md mt).2 = (memoLoop bytes' i md mt).2 ∨
        ((memoLoop bytes i md mt).2
            = (bytes.drop (i + 2)).take (bytes.getD (i + 1) 0) ∧
         (memoLoop bytes' i md mt).2
            = (bytes'.drop (i + 2)).take (bytes.getD (i + 1) 0)))) := by
  refine ⟨?_, ?_, ?_, ?_⟩
  · intro bytes bytes' i txn hlen hagb htag hi1 hfit hL0
    have hag : ∀ j, j < i + 2 ∨ i + 2 + bytes.getD (i + 1) 0 ≤ j →
        bytes.getD j 0 = bytes'.getD j 0 :=
      getD_agree_of_bounded bytes bytes' _ hlen hagb
    have htag' : bytes'.getD i 0 = 0x73 :=
      (hag i (Or.inl (by omega))).symm.trans htag
    have hL' : bytes'.getD (i + 1) 0 = bytes.getD (i + 1) 0 :=
      (hag (i + 1) (Or.inl (by omega))).symm
    have hi1' : i + 1 < bytes'.length := by omega
    have e1 : extractLoop bytes i [] txn
        = extractLoop bytes (i + 2 + bytes.getD (i + 1) 0)
            ((bytes.drop (i + 2)).take (bytes.getD (i + 1) 0)) txn := by
      rw [extractLoop, dif_pos (by omega)]
      dsimp only
      rw [if_pos ⟨htag, hi1, rfl⟩, if_pos hfit]
    have e2 : extractLoop bytes' i [] txn
        = extractLoop bytes' (i + 2 + bytes.getD (i + 1) 0)
            ((bytes'.drop (i + 2)).take (bytes.getD (i + 1) 0)) txn := by
      rw [extractLoop, dif_pos (by omega)]
      dsimp only
      rw [hL', if_pos ⟨htag', hi1', rfl⟩, if_pos (by omega)]
    have hs : (bytes.drop (i + 2)).take (bytes.getD (i + 1) 0) ≠ [] := by
      intro hnil
      have hln := congrArg List.length hnil
      simp only [List.length_take, List.length_drop, List.length_nil] at hln
      omega
    have hs' : (bytes'.drop (i + 2)).take (bytes.getD (i + 1) 0) ≠ [] := by
      intro hnil
      have hln := congrArg List.length hnil
      simp only [List.length_take, List.length_drop, List.length_nil] at hln
      omega
    refine ⟨?_, ?_, ?_⟩
    · rw [e1]
      exact extractLoop_spk_stable_aux bytes.length _ _ _ _ (by omega) hs
    · rw [e2]
      exact extractLoop_spk_stable_aux bytes'.length _ _ _ _ (by omega) hs'
    · rw [e1, e2]
      exact extractLoop_agree_aux bytes.length bytes bytes' _ _ _ txn hlen
        (fun j hj => hag j (Or.inr (by omega))) hs hs' (by omega)
  · intro bytes bytes' i spk hlen hagb htag hi1 hfit hL0
    have hag : ∀ j, j < i + 2 ∨ i + 2 + bytes.getD (i + 1) 0 ≤ j →
        bytes.getD j 0 = bytes'.getD j 0 :=
      getD_agree_of_bounded bytes bytes' _ hlen hagb
    have htag' : bytes'.getD i 0 = 0x74 :=
      (hag i (Or.inl (by omega))).symm.trans htag
    have hL' : bytes'.getD (i + 1) 0 = bytes.getD (i + 1) 0 :=
      (hag (i + 1) (Or.inl (by omega))).symm
    have hi1' : i + 1 < bytes'.length := by omega
    have e1 : extractLoop bytes i spk []
        = extractLoop bytes (i + 2 + bytes.getD (i + 1) 0) spk
            ((bytes.drop (i + 2)).take (bytes.getD (i + 1) 0)) := by
      rw [extractLoop, dif_pos (by omega)]
      dsimp only
      rw [if_neg (by rintro ⟨hc, -⟩; omega), if_pos ⟨htag, hi1, rfl⟩,
        if_pos hfit]
    have e2 : extractLoop bytes' i spk []
        = extractLoop bytes' (i + 2 + bytes.getD (i + 1) 0) spk
            ((bytes'.drop (i + 2)).take (bytes.getD (i + 1) 0)) := by
      rw [extractLoop, dif_pos (by omega)]
      dsimp only
      rw [hL', if_neg (by rintro ⟨hc, -⟩; omega), if_pos ⟨htag', hi1', rfl⟩,
        if_pos (by omega)]
    have hs : (bytes.drop (i + 2)).take (bytes.getD (i + 1) 0) ≠ [] := by
      intro hnil
      have hln := congrArg List.length hnil
      simp only [List.length_take, List.length_drop, List.length_nil] at hln
      omega
    have hs' : (bytes'.drop (i + 2)).take (bytes.getD (i + 1) 0) ≠ [] := by
      intro hnil
      have hln := congrArg List.length hnil
      simp only [List.length_take, List.length_drop, List.length_nil] at hln
      omega
    have hp := extractLoop_agree_txn_aux bytes.length bytes bytes'
      (i + 2 + bytes.getD (i + 1) 0) spk
      ((bytes.drop (i + 2)).take (bytes.getD (i + 1) 0))
      ((bytes'.drop (i + 2)).take (bytes.getD (i + 1) 0))
      hlen (fun j hj => hag j (Or.inr (by omega))) hs hs' (by omega)
    rw [Prod.mk.injEq] at hp
    refine ⟨?_, ?_, ?_, ?_⟩
    · rw [e1]
      exact extractLoop_txn_stable_aux bytes.length _ _ _ _ (by omega) hs
    · rw [e2]
      exact extractLoop_txn_stable_aux bytes'.length _ _ _ _ (by omega) hs'
    · rw [e1, e2]
      exact hp.1
    · rw [e1, e2]
      exact hp.2
  · intro bytes bytes' i md mt hlen hagb htag hi1 hfit
    have hag : ∀ j, j < i + 2 ∨ i + 2 + bytes.getD (i + 1) 0 ≤ j →
        bytes.getD j 0 = bytes'.getD j 0 :=
      getD_agree_of_bounded bytes bytes' _ hlen hagb
    have htag' : bytes'.getD i 0 = 0x7C :=
      (hag i (Or.inl (by omega))).symm.trans htag
    have hL' : bytes'.getD (i + 1) 0 = bytes.getD (i + 1) 0 :=
      (hag (i + 1) (Or.inl (by omega))).symm
    have hi1' : i + 1 < bytes'.length := by omega
    have e1 : memoLoop bytes i md mt
        = memoLoop bytes (i + 2 + bytes.getD (i + 1) 0)
            ((bytes.drop (i + 2)).take (bytes.getD (i + 1) 0)) mt := by
      rw [memoLoop, dif_pos (by omega)]
      dsimp only
      rw [if_neg (by rintro (hc | hc) <;> omega), if_pos ⟨htag, hi1⟩,
        if_pos hfit]
    have e2 : memoLoop bytes' i md mt
        = memoLoop bytes' (i + 2 + bytes.getD (i + 1) 0)
            ((bytes'.drop (i + 2)).take (bytes.getD (i + 1) 0)) mt := by
      rw [memoLoop, dif_pos (by omega)]
      dsimp only
      rw [hL', if_neg (by rintro (hc | hc) <;> omega), if_pos ⟨htag', hi1'⟩,
        if_pos (by omega)]
    have hMid : memoLoop bytes (i + 2 + bytes.getD (i + 1) 0)
          ((bytes'.drop (i + 2)).take (bytes.getD (i + 1) 0)) mt
        = memoLoop bytes' (i + 2 + bytes.getD (i + 1) 0)
            ((bytes'.drop (i + 2)).take (bytes.getD (i + 1) 0)) mt :=
      memoLoop_agree_aux bytes.length bytes bytes' _ _ mt hlen
        (fun j hj => hag j (Or.inr (by omega))) (by omega)
    have hAcc := memoLoop_accum_aux bytes.length bytes
      (i + 2 + bytes.getD (i + 1) 0)
      ((bytes.drop (i + 2)).take (bytes.getD (i + 1) 0)) mt
      ((bytes'.drop (i + 2)).take (bytes.getD (i + 1) 0)) mt (by omega)
    rw [e1, e2, ← hMid]
    refine ⟨?_, ?_⟩
    · rcases hAcc.2 with h | h
      · exact h
      · exact h.1.trans h.2.symm
    · rcases hAcc.1 with h | h
      · exact Or.inl h
      · exact Or.inr ⟨h.1, h.2⟩
  · intro bytes bytes' i md mt hlen hagb htag hi1 hfit
    have hag : ∀ j, j < i + 2 ∨ i + 2 + bytes.getD (i + 1) 0 ≤ j →
        bytes.getD j 0 = bytes'.getD j 0 :=
      getD_agree_of_bounded bytes bytes' _ hlen hagb
    have htag' : bytes'.getD i 0 = 0x7D :=
      (hag i (Or.inl (by omega))).symm.trans htag
    have hL' : bytes'.getD (i + 1) 0 = bytes.getD (i + 1) 0 :=
      (hag (i + 1) (Or.inl (by omega))).symm
    have hi1' : i + 1 < bytes'.length := by omega
    have e1 : memoLoop bytes i md mt
        = memoLoop bytes (i + 2 + bytes.getD (i + 1) 0) md
            ((bytes.drop (i + 2)).take (bytes.getD (i + 1) 0)) := by
      rw [memoLoop, dif_pos (by omega)]
      dsimp only
      rw [if_neg (by rintro (hc | hc) <;> omega),
        if_neg (by rintro ⟨hc, -⟩; omega), if_pos ⟨htag, hi1⟩, if_pos hfit]
    have e2 : memoLoop bytes' i md mt
        = memoLoop bytes' (i + 2 + bytes.getD (i + 1) 0) md
            ((bytes'.drop (i + 2)).take (bytes.getD (i + 1) 0)) := by
      rw [memoLoop, dif_pos (by omega)]
      dsimp only
      rw [hL', if_neg (by rintro (hc | hc) <;> omega),
        if_neg (by rintro ⟨hc, -⟩; omega), if_pos ⟨htag', hi1'⟩,
        if_pos (by omega)]
    have hMid : memoLoop bytes (i + 2 + bytes.getD (i + 1) 0) md
          ((bytes'.drop (i + 2)).take (bytes.getD (i + 1) 0))
        = memoLoop bytes' (i + 2 + bytes.getD (i + 1) 0) md
            ((bytes'.drop (i + 2)).take (bytes.getD (i + 1) 0)) :=
      memoLoop_agree_aux bytes.length bytes bytes' _ md _ hlen
        (fun j hj => hag j (Or.inr (by omega))) (by omega)
    have hAcc := memoLoop_accum_aux bytes.length bytes
      (i + 2 + bytes.getD (i + 1) 0) md
      ((bytes.drop (i + 2)).take (bytes.getD (i + 1) 0)) md
      ((bytes'.drop (i + 2)).take (bytes.getD (i + 1) 0)) (by omega)
    rw [e1, e2, ← hMid]
    refine ⟨?_, ?_⟩
    · rcases hAcc.1 with h | h
      · exact h
      · exact h.1.trans h.2.symm
    · rcases hAcc.2 with h | h
      · exact Or.inl h
      · exact Or.inr ⟨h.1, h.2⟩

/-- Witness for the amended C1 theorem: one concrete instance per captured
field kind, each with a tag byte (`0x74`, `0x73`, `0x7D`, `0x7C`
respectively) inside the captured payload, compared against a run with a
neutral payload byte. -/
theorem extract_payload_opacity_witness :
    ((extractLoop [0x73, 1, 0x74, 0x74, 1, 7] 0 [] []).1 = [0x74] ∧
     (extractLoop [0x73, 1, 9, 0x74, 1, 7] 0 [] []).1 = [9] ∧
     (extractLoop [0x73, 1, 0x74, 0x74, 1, 7] 0 [] []).2
        = (extractLoop [0x73, 1, 9, 0x74, 1, 7] 0 [] []).2) ∧
    ((extractLoop [0x74, 1, 0x73, 0x73, 1, 8] 0 [] []).2.1 = [0x73] ∧
     (extractLoop [0x74, 1, 9, 0x73, 1, 8] 0 [] []).2.1 = [9] ∧
     (extractLoop [0x74, 1, 0x73, 0x73, 1, 8] 0 [] []).1
        = (extractLoop [0x74, 1, 9, 0x73, 1, 8] 0 [] []).1 ∧
     (extractLoop [0x74, 1, 0x73, 0x73, 1, 8] 0 [] []).2.2
        = (extractLoop [0x74, 1, 9, 0x73, 1, 8] 0 [] []).2.2) ∧
    ((memoLoop [0x7C, 1, 0x7D, 0xE1] 0 [7] []).2
        = (memoLoop [0x7C, 1, 9, 0xE1] 0 [7] []).2 ∧
     ((memoLoop [0x7C, 1, 0x7D, 0xE1] 0 [7] []).1
          = (memoLoop [0x7C, 1, 9, 0xE1] 0 [7] []).1 ∨
       ((memoLoop [0x7C, 1, 0x7D, 0xE1] 0 [7] []).1 = [0x7D] ∧
        (memoLoop [0x7C, 1, 9, 0xE1] 0 [7] []).1 = [9]))) ∧
    ((memoLoop [0x7D, 1, 0x7C, 0xE1] 0 [] [5]).1
        = (memoLoop [0x7D, 1, 9, 0xE1] 0 [] [5]).1 ∧
     ((memoLoop [0x7D, 1, 0x7C, 0xE1] 0 [] [5]).2
          = (memoLoop [0x7D, 1, 9, 0xE1] 0 [] [5]).2 ∨
       ((memoLoop [0x7D, 1, 0x7C, 0xE1] 0 [] [5]).2 = [0x7C] ∧
        (memoLoop [0x7D, 1, 9, 0xE1] 0 [] [5]).2 = [9]))) :=
  ⟨extract_payload_opacity.1 [0x73, 1, 0x74, 0x74, 1, 7] [0x73, 1, 9, 0x74, 1, 7]
     0 [] (by decide) (by decide) (by decide) (by decide) (by decide) (by decide),
   extract_payload_opacity.2.1 [0x74, 1, 0x73, 0x73, 1, 8] [0x74, 1, 9, 0x73, 1, 8]
     0 [] (by decide) (by decide) (by decide) (by decide) (by decide) (by decide),
   extract_payload_opacity.2.2.1 [0x7C, 1, 0x7D, 0xE1] [0x7C, 1, 9, 0xE1]
     0 [7] [] (by decide) (by decide) (by decide) (by decide) (by decide),
   extract_payload_opacity.2.2.2 [0x7D, 1, 0x7C, 0xE1] [0x7D, 1, 9, 0xE1]
     0 [] [5] (by decide) (by decide) (by decide) (by decide) (by decide)⟩
